import Mathlib

/-!
Verification development for the structural core of quicktype renderer
layer: the type-graph / union algebra, the naming maps built by
`ConvenienceRenderer.setUpNaming`, the dependency traversal, the emission
iterator API, and the C++ backend union serialization
(`CPlusPlusRenderer`).

The type graph is embedded as an arena of nodes addressed by `Nat`
indices, so that cyclic reference graphs are representable and object
identity (used as the key of the `immutable.Map`s in the source) becomes
index equality.
-/

namespace Quicktype

/-- The six primitive kinds of the type model. -/
inductive PrimKind
  | anyT
  | nullT
  | boolT
  | integerT
  | doubleT
  | stringT
deriving DecidableEq, Repr

/-- One node of the type graph; children are arena indices. -/
inductive TypeDesc
  | prim (k : PrimKind)
  | arrayOf (items : Nat)
  | mapOf (values : Nat)
  | classOf (properties : List (String × Nat))
  | unionOf (members : List Nat)
deriving DecidableEq, Repr

/-- The arena holding all type nodes. -/
structure TypeGraph where
  nodes : List TypeDesc
deriving DecidableEq, Repr

/-- Node lookup; out-of-range indices read as `any` (never hit by the claims). -/
def typeAt (g : TypeGraph) (t : Nat) : TypeDesc :=
  g.nodes.getD t (.prim .anyT)

def isNull (g : TypeGraph) (t : Nat) : Bool :=
  typeAt g t == .prim .nullT

def isClass (g : TypeGraph) (t : Nat) : Bool :=
  match typeAt g t with
  | .classOf _ => true
  | _ => false

def isUnion (g : TypeGraph) (t : Nat) : Bool :=
  match typeAt g t with
  | .unionOf _ => true
  | _ => false

/-- Modelled from the spec: `NamedType = Class | Union` (`Type.ts` with
`isNamedType` is not under `src/`). -/
def isNamedType (g : TypeGraph) (t : Nat) : Bool :=
  isClass g t || isUnion g t

/-- Modelled from the spec: `nullableFromUnion(u)` — if `u.members` has
exactly two entries and exactly one is `Null`, returns the other member;
otherwise returns none (`Type.ts` is not under `src/`). -/
def nullableFromUnion (g : TypeGraph) (t : Nat) : Option Nat :=
  match typeAt g t with
  | .unionOf [a, b] =>
    if isNull g a then (if isNull g b then none else some b)
    else if isNull g b then some a
    else none
  | _ => none

/-- Modelled from the spec: `removeNullFromUnion(u)` returns
`(hasNull, nonNullMembers)` (`Type.ts` is not under `src/`); member order
is preserved. On a non-union node it is never called by the source. -/
def removeNullFromUnion (g : TypeGraph) (t : Nat) : Bool × List Nat :=
  match typeAt g t with
  | .unionOf ms => (ms.any (fun m => isNull g m), ms.filter (fun m => !(isNull g m)))
  | _ => (false, [])

/-- `ConvenienceRenderer.unionNeedsName`: true iff `nullableFromUnion` is none. -/
def unionNeedsName (g : TypeGraph) (t : Nat) : Bool :=
  (nullableFromUnion g t).isNone

/-- A `Name` allocation, identified by its provenance (the source uses the
object identity of the `Name` instance; here the allocation site plays
that role). `topLevel s` is the `FixedName` allocated for top level `s`,
`simpleName t` the `SimpleName` allocated by `addClassOrUnionNamed` for
type node `t`, `propName c p` the `SimpleName` for property `p` of class
node `c`. -/
inductive NameRef
  | topLevel (s : String)
  | simpleName (t : Nat)
  | propName (c : Nat) (p : String)
deriving DecidableEq, Repr

/-- The `_classAndUnionNames` map (`immutable.Map<NamedType, Name>`),
as an association list keyed by arena index. -/
abbrev CUNames : Type := List (Nat × NameRef)

/-- `Map.set`: later entries shadow earlier ones; we keep one binding. -/
def cunSet (m : CUNames) (t : Nat) (n : NameRef) : CUNames :=
  (t, n) :: (List.filter (fun p => p.1 != t) m)

/-- `Map.has`. -/
def cunHas (m : CUNames) (t : Nat) : Bool :=
  List.any m (fun p => p.1 == t)

/-- `Map.get`. -/
def cunGet (m : CUNames) (t : Nat) : Option NameRef :=
  (List.find? (fun p => p.1 == t) m).map (fun p => p.2)

/-- `ConvenienceRenderer.addClassOrUnionNamed`: idempotent — returns the
existing allocation if present, otherwise allocates a `SimpleName`. -/
def addClassOrUnionNamed (m : CUNames) (t : Nat) : CUNames :=
  if cunHas m t then m else cunSet m t (.simpleName t)

/-- The registration performed by `ConvenienceRenderer.nameForTopLevel`:
when `namedTypeToNameForTopLevel` returns the type (the C++ backend
returns any `NamedType`), the top level `FixedName` is recorded in
`_classAndUnionNames`. -/
def regTopLevel (g : TypeGraph) (m : CUNames) (nm : String) (t : Nat) : CUNames :=
  if isNamedType g t then cunSet m t (.topLevel nm) else m

/-- Children of a node as stored in the graph (`Type.children`, modelled
from the spec: Array/Map yield their element/value type, a Class its
property types in insertion order, a Union its members; `Type.ts` is not
under `src/`). -/
def childrenRaw (g : TypeGraph) (t : Nat) : List Nat :=
  match typeAt g t with
  | .prim _ => []
  | .arrayOf i => [i]
  | .mapOf v => [v]
  | .classOf ps => ps.map (fun p => p.2)
  | .unionOf ms => ms

/-- Depth-first collection of the nodes reachable from `t`, guarded by the
visited list; fuel bounds the recursion depth (any fuel at least the node
count plus one explores everything). -/
def reachableAux (g : TypeGraph) : Nat → List Nat → Nat → List Nat
  | 0, vis, _ => vis
  | fuel + 1, vis, t =>
    if vis.contains t then vis
    else (childrenRaw g t).foldl (reachableAux g fuel) (vis ++ [t])

/-- Modelled from the spec: `allClassesAndUnions(topLevels)` collects the
classes and the unions reachable from the top levels (`Type.ts` is not
under `src/`). -/
def allClassesAndUnions (g : TypeGraph) (tls : List (String × Nat)) : List Nat × List Nat :=
  let r := tls.foldl (fun vis p => reachableAux g (g.nodes.length + 1) vis p.2) []
  (r.filter (fun t => isClass g t), r.filter (fun t => isUnion g t))

/-- The `_classAndUnionNames` map as left by
`ConvenienceRenderer.setUpNaming` (with the C++ backend
`namedTypeToNameForTopLevel`): first every top level is processed by
`nameForTopLevel`, then every reachable class and every reachable union
with `unionNeedsName` gets `addClassOrUnionNamed`. -/
def setUpNamingMap (g : TypeGraph) (tls : List (String × Nat)) : CUNames :=
  let m0 : CUNames := tls.foldl (fun m p => regTopLevel g m p.1 p.2) []
  let cu := allClassesAndUnions g tls
  let namedUnions := cu.2.filter (fun u => unionNeedsName g u)
  let m1 := cu.1.foldl addClassOrUnionNamed m0
  namedUnions.foldl addClassOrUnionNamed m1

/-- The fault vocabulary of the embedded renderer paths. -/
inductive Fault
  | invalidRef
  | variantNotNeeded
  | unknownType
  | fuelOut
deriving DecidableEq, Repr

/-- `ConvenienceRenderer.nameForNamedType`, composed with the resolved
name table `r` (the source returns the `Name`; its text is read through
`this.names`): throws `InvalidReference` when the type was never
registered. -/
def nameForNamedType (r : NameRef → String) (m : CUNames) (t : Nat) : Except Fault String :=
  match cunGet m t with
  | none => .error .invalidRef
  | some n => .ok (r n)

/-- Effectful map over a list in the `Except` monad, first failure wins
(the order in which the source loops evaluate and throw). -/
def mapE (f : α → Except Fault β) : List α → Except Fault (List β)
  | [] => .ok []
  | a :: as => do
    let b ← f a
    let bs ← mapE f as
    .ok (b :: bs)

/-- `CPlusPlusRenderer.cppType`, flattened to its final text (annotations
carry no text of their own). Recursion through the possibly cyclic arena
is fuel-bounded; the source would not terminate where the fuel runs out. -/
def cppType (g : TypeGraph) (r : NameRef → String) (m : CUNames) : Nat → Nat → Except Fault String
  | 0, _ => .error .fuelOut
  | fuel + 1, t =>
    match typeAt g t with
    | .prim .anyT => .ok "json"
    | .prim .nullT => .ok "json"
    | .prim .boolT => .ok "bool"
    | .prim .integerT => .ok "int64_t"
    | .prim .doubleT => .ok "double"
    | .prim .stringT => .ok "std::string"
    | .arrayOf i => (cppType g r m fuel i).map (fun s => "std::vector<" ++ s ++ ">")
    | .classOf _ => nameForNamedType r m t
    | .mapOf v => (cppType g r m fuel v).map (fun s => "std::map<std::string, " ++ s ++ ">")
    | .unionOf _ =>
      match nullableFromUnion g t with
      | none => nameForNamedType r m t
      | some x => (cppType g r m fuel x).map (fun s => "boost::optional<" ++ s ++ ">")

/-- The member texts of the `boost::variant` built over `nonNulls`, in
member order (the list `cppTypeInOptional` pushes, before joining). -/
def variantMemberTexts (g : TypeGraph) (r : NameRef → String) (m : CUNames)
    (fuel : Nat) (nonNulls : List Nat) : Except Fault (List String) :=
  mapE (cppType g r m fuel) nonNulls

/-- `CPlusPlusRenderer.cppTypeInOptional`: a single non-null member is
rendered bare, otherwise a `boost::variant` over the members in order. -/
def cppTypeInOptional (g : TypeGraph) (r : NameRef → String) (m : CUNames)
    (fuel : Nat) (nonNulls : List Nat) : Except Fault String :=
  match nonNulls with
  | [x] => cppType g r m fuel x
  | _ =>
    (variantMemberTexts g r m fuel nonNulls).map
      (fun l => "boost::variant<" ++ String.intercalate ", " l ++ ">")

/-- `CPlusPlusRenderer.variantType`: throws when fewer than two non-null
members remain; wraps in `boost::optional` when the union had `Null` and
`noOptional` is not set. -/
def variantType (g : TypeGraph) (r : NameRef → String) (m : CUNames)
    (fuel : Nat) (u : Nat) (noOptional : Bool) : Except Fault String :=
  let hn := removeNullFromUnion g u
  if hn.2.length < 2 then .error .variantNotNeeded
  else
    (cppTypeInOptional g r m fuel hn.2).map
      (fun v => if !hn.1 || noOptional then v else "boost::optional<" ++ v ++ ">")

/-- `CPlusPlusRenderer.emitUnionTypedefs`: the one line it emits. -/
def emitUnionTypedef (g : TypeGraph) (r : NameRef → String) (m : CUNames)
    (fuel : Nat) (u : Nat) (unionName : String) : Except Fault String :=
  (variantType g r m fuel u false).map
    (fun v => "typedef " ++ v ++ " " ++ unionName ++ ";")

/-- The `to_json` switch emitted by `CPlusPlusRenderer.emitUnionFunctions`:
the numbered case lines and the unconditional default line. -/
structure UnionToJson where
  cases : List (Nat × String)
  defaultLine : String
deriving DecidableEq, Repr

/-- The `to_json` part of `CPlusPlusRenderer.emitUnionFunctions`:
`variantType(u, true)` is computed first (its throw aborts the whole
emission), then one `case i` per non-null member in `removeNullFromUnion`
order, casting with `boost::get` to that member `cppType`, and an
unconditional throwing default. -/
def emitUnionToJson (g : TypeGraph) (r : NameRef → String) (m : CUNames)
    (fuel : Nat) (u : Nat) : Except Fault UnionToJson := do
  let _ ← variantType g r m fuel u true
  let texts ← variantMemberTexts g r m fuel (removeNullFromUnion g u).2
  .ok
    { cases :=
        texts.enum.map (fun p => (p.1, "j = boost::get<" ++ p.2 ++ ">(x);"))
      defaultLine := "default: throw \"This should not happen\";" }

/-- The inner `typeNameForUnionMember` of
`ConvenienceRenderer.unionFieldName`. The `MapType` branch is the
source comma expression: the recursive call on the value type is
evaluated (so its throw propagates) and its value is discarded in favour
of the bare string. -/
def typeNameForUnionMember (g : TypeGraph) (r : NameRef → String) (m : CUNames) :
    Nat → Nat → Except Fault String
  | 0, _ => .error .fuelOut
  | fuel + 1, t =>
    match typeAt g t with
    | .prim .anyT => .ok "anything"
    | .prim .nullT => .ok "null"
    | .prim .boolT => .ok "bool"
    | .prim .integerT => .ok "long"
    | .prim .doubleT => .ok "double"
    | .prim .stringT => .ok "string"
    | .arrayOf i => (typeNameForUnionMember g r m fuel i).map (fun s => s ++ "_array")
    | .classOf _ => nameForNamedType r m t
    | .mapOf v => (typeNameForUnionMember g r m fuel v).map (fun _ => "_map")
    | .unionOf _ => .ok "union"

/-- `ConvenienceRenderer.unionFieldName`: the property namer style
applied to `typeNameForUnionMember`. -/
def unionFieldName (g : TypeGraph) (r : NameRef → String) (m : CUNames)
    (style : String → String) (fuel : Nat) (t : Nat) : Except Fault String :=
  (typeNameForUnionMember g r m fuel t).map style

def charVal (a : Char) : Nat := a.val.toNat

/-- Lexicographic code-point comparison on character lists — the string
order used by the default comparator of the `sortBy` of `immutable`. -/
def strLeAux : List Char → List Char → Bool
  | [], _ => true
  | _ :: _, [] => false
  | a :: as, b :: bs =>
    if charVal a < charVal b then true
    else if charVal b < charVal a then false
    else strLeAux as bs

/-- Lexicographic string comparison. -/
def strLe (a b : String) : Bool := strLeAux a.data b.data

theorem strLeAux_cons_iff (a b : Char) (as bs : List Char) :
    strLeAux (a :: as) (b :: bs) = true ↔
      (charVal a < charVal b ∨ (charVal a = charVal b ∧ strLeAux as bs = true)) := by
  rcases Nat.lt_trichotomy (charVal a) (charVal b) with h | h | h
  · simp [strLeAux, h]
  · simp [strLeAux, h, Nat.lt_irrefl]
  · simp only [strLeAux]
    rw [if_neg (by omega), if_pos h]
    constructor
    · intro hf; exact absurd hf (by simp)
    · intro hc; omega

theorem strLeAux_total : ∀ as bs, strLeAux as bs = true ∨ strLeAux bs as = true
  | [], _ => Or.inl rfl
  | _ :: _, [] => Or.inr rfl
  | a :: as, b :: bs => by
    rw [strLeAux_cons_iff, strLeAux_cons_iff]
    rcases Nat.lt_trichotomy (charVal a) (charVal b) with h | h | h
    · exact Or.inl (Or.inl h)
    · rcases strLeAux_total as bs with ih | ih
      · exact Or.inl (Or.inr ⟨h, ih⟩)
      · exact Or.inr (Or.inr ⟨h.symm, ih⟩)
    · exact Or.inr (Or.inl h)

theorem strLeAux_trans : ∀ as bs cs, strLeAux as bs = true → strLeAux bs cs = true →
    strLeAux as cs = true
  | [], _, _ => by intro _ _; rfl
  | _ :: _, [], _ => by intro h _; simp [strLeAux] at h
  | _ :: _, _ :: _, [] => by intro _ h; simp [strLeAux] at h
  | a :: as, b :: bs, c :: cs => by
    intro h1 h2
    rw [strLeAux_cons_iff] at h1 h2 ⊢
    rcases h1 with h1 | ⟨h1e, h1r⟩ <;> rcases h2 with h2 | ⟨h2e, h2r⟩
    · exact Or.inl (by omega)
    · exact Or.inl (by omega)
    · exact Or.inl (by omega)
    · exact Or.inr ⟨by omega, strLeAux_trans as bs cs h1r h2r⟩

theorem strLe_total (a b : String) : strLe a b = true ∨ strLe b a = true :=
  strLeAux_total a.data b.data

theorem strLe_trans (a b c : String) : strLe a b = true → strLe b c = true →
    strLe a c = true :=
  strLeAux_trans a.data b.data c.data

/-- The resolved text of the `Name` allocated for property `p` of class
node `c` (`this.names.get(propertyNameds.get(n))`). -/
def propKey (r : NameRef → String) (c : Nat) (p : String × Nat) : String :=
  r (.propName c p.1)

/-- The stable sort performed by the `sortBy` of `immutable` on a class
properties, keyed by each property final resolved name. -/
def sortPropsByResolvedName (r : NameRef → String) (c : Nat)
    (ps : List (String × Nat)) : List (String × Nat) :=
  List.insertionSort (fun a b => strLe (propKey r c a) (propKey r c b) = true) ps

/-- `ConvenienceRenderer.childrenOfType`: a class property types sorted
by each property resolved name, any other node stored children;
`toOrderedSet` keeps the first occurrence of a duplicate. -/
def childrenOfType (g : TypeGraph) (r : NameRef → String) (t : Nat) : List Nat :=
  match typeAt g t with
  | .classOf ps => ((sortPropsByResolvedName r t ps).map (fun p => p.2)).eraseDups
  | _ => (childrenRaw g t).eraseDups

/-- Post-order, visited-guarded traversal state: visited nodes and the
named types emitted so far. -/
def postorderAux (g : TypeGraph) (childrenOf : Nat → List Nat) :
    Nat → List Nat × List Nat → Nat → List Nat × List Nat
  | 0, st, _ => st
  | fuel + 1, st, t =>
    if st.1.contains t then st
    else
      let st1 := (childrenOf t).foldl (postorderAux g childrenOf fuel) (st.1 ++ [t], st.2)
      if isNamedType g t then (st1.1, st1.2 ++ [t]) else st1

/-- Modelled from the spec: `allNamedTypes(topLevels, childrenOf)` —
post-order, cycle-guarded traversal of the named types reachable from the
top levels (`Type.ts` is not under `src/`). -/
def allNamedTypes (g : TypeGraph) (childrenOf : Nat → List Nat)
    (tls : List (String × Nat)) : List Nat :=
  (tls.foldl (fun st p => postorderAux g childrenOf (g.nodes.length + 1) st p.2) ([], [])).2

/-- `_namedTypes` as computed by `ConvenienceRenderer.emitSource`: every
reachable named type except unions that do not need a name. -/
def namedTypesOf (g : TypeGraph) (r : NameRef → String)
    (tls : List (String × Nat)) : List Nat :=
  (allNamedTypes g (childrenOfType g r) tls).filter
    (fun t => !(isUnion g t) || unionNeedsName g t)

/-- `_namedUnions` (`splitClassesAndUnions` keeps relative order). -/
def namedUnionsOf (g : TypeGraph) (r : NameRef → String)
    (tls : List (String × Nat)) : List Nat :=
  (namedTypesOf g r tls).filter (fun t => isUnion g t)

/-- A naming scope: its own forbidden words, designated `Name`s and
namespaces that are additionally forbidden, and the `Name`s allocated in
it. Modelled from the spec (`Naming.ts` is not under `src/`): a
namespace forbidden-word set is its own plus what it inherits from the
designated namespaces. -/
inductive NamingScope
  | mk (forbiddenWords : List String) (forbiddenNames : List NameRef)
       (forbiddenScopes : List NamingScope) (members : List NameRef)

def scopeMembers : NamingScope → List NameRef
  | .mk _ _ _ ms => ms

/-- Modelled from the spec: everything a `Name` allocated in the scope is
forbidden to resolve to — the scope own forbidden words, the resolved
texts of its designated forbidden `Name`s, and, for every designated
forbidden namespace, that namespace allocated names and its whole
forbidden set (so designating the global namespace forbids every type
name and every keyword). -/
def forbiddenStrings (r : NameRef → String) : NamingScope → List String
  | .mk own fns fscopes _ =>
    own ++ fns.map r ++
      fscopes.attach.flatMap
        (fun x => (scopeMembers x.1).map r ++ forbiddenStrings r x.1)
termination_by ns => sizeOf ns
decreasing_by
  have h := List.sizeOf_lt_of_mem x.2
  simp only [NamingScope.mk.sizeOf_spec]
  omega

/-- `keywordNamespace("global", ...)` in its final state: the backend
keywords as forbidden words, the allocated type and top-level names as
members. -/
def globalScope (keywords : List String) (typeNames : List NameRef) : NamingScope :=
  .mk keywords [] [] typeNames

/-- The per-class property namespace built by
`ConvenienceRenderer.addPropertyNameds`: forbidden names and namespaces
exactly as supplied by `forbiddenForProperties`, members the class
property names. -/
def propertyScope (extraNames : List NameRef) (extraScopes : List NamingScope)
    (props : List NameRef) : NamingScope :=
  .mk [] extraNames extraScopes props

/-- Modelled from the spec: a finished resolution never lets a `Name`
resolve to a forbidden word of its scope. -/
def ValidResolution (r : NameRef → String) (ns : NamingScope) : Prop :=
  ∀ n ∈ scopeMembers ns, r n ∉ forbiddenStrings r ns

/-- The four blank-line policies of `BlankLineLocations`. -/
inductive BlankLineLocations
  | noBlanks
  | leading
  | interposing
  | leadingAndInterposing
deriving DecidableEq, Repr

def policyLeads : BlankLineLocations → Bool
  | .leading => true
  | .leadingAndInterposing => true
  | _ => false

def policyInterposes : BlankLineLocations → Bool
  | .interposing => true
  | .leadingAndInterposing => true
  | _ => false

/-- One step of an iterator run: a blank separator or a callback call. -/
inductive EmitEvent (α : Type)
  | blank
  | call (a : α)
deriving DecidableEq, Repr

def interposeBlanks : List α → List (EmitEvent α)
  | [] => []
  | [a] => [.call a]
  | a :: b :: rest => .call a :: .blank :: interposeBlanks (b :: rest)

/-- Modelled from the spec: `Renderer.forEachWithBlankLines` (not under
`src/`) emits a separator before the first item iff the policy is leading,
between consecutive items iff it is interposing, and calls the callback on
every item in sequence order. -/
def forEachWithBlankLines (policy : BlankLineLocations) (items : List α) :
    List (EmitEvent α) :=
  let body := if policyInterposes policy then interposeBlanks items else items.map .call
  (if policyLeads policy && items.length != 0 then [.blank] else []) ++ body

/-- The sequence of callback arguments of an iterator run. -/
def callsOf (evs : List (EmitEvent α)) : List α :=
  evs.filterMap (fun e => match e with
    | .call a => some a
    | .blank => none)

/-- `ConvenienceRenderer.forEachTopLevel`: the argument list of the
callback calls — each top level with its `_topLevelNames` entry. -/
def forEachTopLevelCalls (policy : BlankLineLocations)
    (tls : List (String × Nat)) : List (Nat × NameRef) :=
  (callsOf (forEachWithBlankLines policy tls)).map (fun p => (p.2, .topLevel p.1))

/-- The ordered property-name pairs `callForClass` builds: the class
property names sorted ascending by resolved text (`sortBy` then
`toOrderedMap`). -/
def sortedPropertyNamePairs (r : NameRef → String) (c : Nat)
    (ps : List (String × Nat)) : List (String × NameRef) :=
  List.insertionSort (fun a b => strLe (r a.2) (r b.2) = true)
    (ps.map (fun p => (p.1, NameRef.propName c p.1)))

/-- The argument triple `callForClass` passes to a class callback. -/
def callForClassArgs (g : TypeGraph) (r : NameRef → String) (m : CUNames)
    (c : Nat) : Nat × Option NameRef × List (String × NameRef) :=
  match typeAt g c with
  | .classOf ps => (c, cunGet m c, sortedPropertyNamePairs r c ps)
  | _ => (c, cunGet m c, [])

/-- `ConvenienceRenderer.forEachClass`: the argument list of the callback
calls over `_namedClasses`. -/
def forEachClassCalls (g : TypeGraph) (r : NameRef → String) (m : CUNames)
    (policy : BlankLineLocations) (classes : List Nat) :
    List (Nat × Option NameRef × List (String × NameRef)) :=
  (callsOf (forEachWithBlankLines policy classes)).map (callForClassArgs g r m)

/-- `ConvenienceRenderer.forEachUnion`: the argument list of the callback
calls over `_namedUnions`. -/
def forEachUnionCalls (m : CUNames) (policy : BlankLineLocations)
    (unions : List Nat) : List (Nat × Option NameRef) :=
  (callsOf (forEachWithBlankLines policy unions)).map (fun u => (u, cunGet m u))

/-- The iteration sequence of `ConvenienceRenderer.forEachNamedType`: the
whole `_namedTypes` sequence, reversed when `leavesFirst` is set. -/
def forEachNamedTypeOrder (namedTypes : List Nat) (leavesFirst : Bool) : List Nat :=
  if leavesFirst then namedTypes.reverse else namedTypes

/-- `ConvenienceRenderer.forEachNamedType`: the dispatched callback calls
(class triples on the left, union pairs on the right). -/
def forEachNamedTypeCalls (g : TypeGraph) (r : NameRef → String) (m : CUNames)
    (policy : BlankLineLocations) (leavesFirst : Bool) (namedTypes : List Nat) :
    List (Sum (Nat × Option NameRef × List (String × NameRef)) (Nat × Option NameRef)) :=
  (callsOf (forEachWithBlankLines policy (forEachNamedTypeOrder namedTypes leavesFirst))).map
    (fun t => if isClass g t then .inl (callForClassArgs g r m t) else .inr (t, cunGet m t))

/-- The classes-only projection of a named-type sequence. -/
def classesOnly (g : TypeGraph) (l : List Nat) : List Nat :=
  l.filter (fun t => isClass g t)

/-! ## Example inputs used by the witnesses -/

/-- Arena: node 0 = Null, node 1 = Bool, node 2 = the union of both. -/
def gNullableTop : TypeGraph := ⟨[.prim .nullT, .prim .boolT, .unionOf [0, 1]]⟩

/-- Top levels binding the nullable union itself as a top level. -/
def tlsNullableTop : List (String × Nat) := [("x", 2)]

/-- Arena: node 0 = Null, node 1 = Bool, node 2 = their union, node 3 a
class holding the union as a property. -/
def gNullableInner : TypeGraph :=
  ⟨[.prim .nullT, .prim .boolT, .unionOf [0, 1], .classOf [("u", 2)]]⟩

def tlsNullableInner : List (String × Nat) := [("top", 3)]

/-- Arena: node 0 = Integer, node 1 = String, node 2 = their union. -/
def gIntOrString : TypeGraph := ⟨[.prim .integerT, .prim .stringT, .unionOf [0, 1]]⟩

/-- A constant resolved-name table used where names do not matter. -/
def rConst : NameRef → String := fun _ => "n"

/-! ## Claims -/

/-- C1: `unionNeedsName(u)` is true iff `nullableFromUnion(u)` is none; a
union whose members are exactly Null and one other member X yields
`unionNeedsName = false` and `nullableFromUnion = some X`; any other
member list, and any non-union node, yields none. -/
theorem c1_unionNeedsName_iff_nullable (g : TypeGraph) (u : Nat) :
    (unionNeedsName g u = true ↔ nullableFromUnion g u = none)
    ∧ (∀ a b, typeAt g u = .unionOf [a, b] → isNull g a = true → isNull g b = false →
        unionNeedsName g u = false ∧ nullableFromUnion g u = some b)
    ∧ (∀ a b, typeAt g u = .unionOf [a, b] → isNull g a = false → isNull g b = true →
        unionNeedsName g u = false ∧ nullableFromUnion g u = some a)
    ∧ (∀ ms, typeAt g u = .unionOf ms →
        (∀ a b, ms = [a, b] → isNull g a = isNull g b) → nullableFromUnion g u = none)
    ∧ ((∀ ms, typeAt g u ≠ .unionOf ms) → nullableFromUnion g u = none) := by
  refine ⟨?_, ?_, ?_, ?_, ?_⟩
  · simp [unionNeedsName, Option.isNone_iff_eq_none]
  · intro a b h ha hb
    simp [unionNeedsName, nullableFromUnion, h, ha, hb]
  · intro a b h ha hb
    simp [unionNeedsName, nullableFromUnion, h, ha, hb]
  · intro ms h heq
    unfold nullableFromUnion
    rw [h]
    match ms, heq with
    | [], _ => rfl
    | [a], _ => rfl
    | a :: b :: c :: rest, _ => rfl
    | [a, b], heq =>
      have hab := heq a b rfl
      cases hh : isNull g a
      · simp [hh, ← hab]
      · simp [hh, ← hab]
  · intro h
    unfold nullableFromUnion
    cases htu : typeAt g u
    case unionOf ms => exact absurd htu (h ms)
    all_goals rfl

/-- C1 witness: on the concrete union of Null and Bool. -/
theorem c1_witness :
    unionNeedsName gNullableTop 2 = false ∧ nullableFromUnion gNullableTop 2 = some 1 :=
  (c1_unionNeedsName_iff_nullable gNullableTop 2).2.1 0 1 (by decide) (by decide) (by decide)

/-- C6: the classes-only projection of the `forEachNamedType` iteration
order with `leavesFirst = true` is the exact reverse of the projection
with `leavesFirst = false`, because the traversal reverses the entire
named-type sequence. -/
theorem c6_classes_reverse_symmetry (g : TypeGraph) (namedTypes : List Nat) :
    classesOnly g (forEachNamedTypeOrder namedTypes true) =
      (classesOnly g (forEachNamedTypeOrder namedTypes false)).reverse := by
  simp [classesOnly, forEachNamedTypeOrder, List.filter_reverse]

/-- Arena used by the C9 witness: a class whose two properties are listed
in an insertion order opposite to their resolved-name order. -/
def gTwoProps : TypeGraph := ⟨[.prim .boolT, .prim .stringT, .classOf [("b", 0), ("a", 1)]]⟩

/-- Resolved-name table mapping every property name to its raw text. -/
def rRaw : NameRef → String := fun n =>
  match n with
  | .propName _ p => p
  | _ => "z"

/-- C9: the ordered property-name pairs `callForClass` hands to class
callbacks are the class property names sorted ascending by resolved
text — a permutation of the insertion-order pairs that is pairwise
ordered by the resolved strings. -/
theorem c9_callForClass_sorted (g : TypeGraph) (r : NameRef → String) (m : CUNames)
    (c : Nat) (ps : List (String × Nat)) (h : typeAt g c = .classOf ps) :
    (callForClassArgs g r m c).2.2 = sortedPropertyNamePairs r c ps
    ∧ (sortedPropertyNamePairs r c ps).Perm
        (ps.map (fun p => (p.1, NameRef.propName c p.1)))
    ∧ (sortedPropertyNamePairs r c ps).Pairwise
        (fun a b => strLe (r a.2) (r b.2) = true) := by
  refine ⟨?_, ?_, ?_⟩
  · simp [callForClassArgs, h]
  · exact List.perm_insertionSort _ _
  · haveI : IsTotal (String × NameRef) (fun a b => strLe (r a.2) (r b.2) = true) :=
      ⟨fun a b => strLe_total (r a.2) (r b.2)⟩
    haveI : IsTrans (String × NameRef) (fun a b => strLe (r a.2) (r b.2) = true) :=
      ⟨fun a b c => strLe_trans (r a.2) (r b.2) (r c.2)⟩
    exact List.sorted_insertionSort _ _

/-- C9 witness: on the concrete two-property class the sorted pairs are
in resolved-name order, not insertion order. -/
theorem c9_witness :
    ((callForClassArgs gTwoProps rRaw [] 2).2.2 =
        sortedPropertyNamePairs rRaw 2 [("b", 0), ("a", 1)]
      ∧ (sortedPropertyNamePairs rRaw 2 [("b", 0), ("a", 1)]).Perm
          ([("b", 0), ("a", 1)].map (fun p => (p.1, NameRef.propName 2 p.1)))
      ∧ (sortedPropertyNamePairs rRaw 2 [("b", 0), ("a", 1)]).Pairwise
          (fun a b => strLe (rRaw a.2) (rRaw b.2) = true))
    ∧ sortedPropertyNamePairs rRaw 2 [("b", 0), ("a", 1)] =
        [("a", .propName 2 "a"), ("b", .propName 2 "b")] :=
  ⟨c9_callForClass_sorted gTwoProps rRaw [] 2 [("b", 0), ("a", 1)] (by decide), by decide⟩

/-- Arena used by the C10 witness: two map types with different value types. -/
def gTwoMaps : TypeGraph := ⟨[.prim .boolT, .prim .stringT, .mapOf 0, .mapOf 1]⟩

/-- A sample style function recording that it was applied. -/
def styleSample : String → String := fun s => "f" ++ s

/-- C10: for a Map type the union field name is the style applied to the
bare string "_map": the recursive computation on the value type is
evaluated (its value discarded by the comma expression), so whenever it
succeeds any two map types yield the same union field name. -/
theorem c10_unionFieldName_map_constant (g : TypeGraph) (r : NameRef → String)
    (m : CUNames) (style : String → String) (fuel1 fuel2 t1 v1 t2 v2 : Nat)
    (s1 s2 : String)
    (ht1 : typeAt g t1 = .mapOf v1)
    (hv1 : typeNameForUnionMember g r m fuel1 v1 = .ok s1)
    (ht2 : typeAt g t2 = .mapOf v2)
    (hv2 : typeNameForUnionMember g r m fuel2 v2 = .ok s2) :
    unionFieldName g r m style (fuel1 + 1) t1 = .ok (style "_map")
    ∧ unionFieldName g r m style (fuel1 + 1) t1 =
        unionFieldName g r m style (fuel2 + 1) t2 := by
  have e1 : unionFieldName g r m style (fuel1 + 1) t1 = .ok (style "_map") := by
    simp [unionFieldName, typeNameForUnionMember, ht1, hv1, Except.map]
  have e2 : unionFieldName g r m style (fuel2 + 1) t2 = .ok (style "_map") := by
    simp [unionFieldName, typeNameForUnionMember, ht2, hv2, Except.map]
  exact ⟨e1, e1.trans e2.symm⟩

/-- C10 witness: the two concrete map types (over Bool and over String)
yield the identical union field name. -/
theorem c10_witness :
    unionFieldName gTwoMaps rConst [] styleSample 2 2 = .ok (styleSample "_map")
    ∧ unionFieldName gTwoMaps rConst [] styleSample 2 2 =
        unionFieldName gTwoMaps rConst [] styleSample 2 3 :=
  c10_unionFieldName_map_constant gTwoMaps rConst [] styleSample 1 1 2 0 3 1
    "bool" "string" (by decide) (by rfl) (by decide) (by rfl)

theorem cunGet_none_iff (m : CUNames) (t : Nat) :
    cunGet m t = none ↔ cunHas m t = false := by
  unfold cunGet cunHas
  rw [Option.map_eq_none']
  rw [List.find?_eq_none]
  constructor
  · intro h
    rw [List.any_eq_false]
    exact fun p hp => by simpa using h p hp
  · intro h p hp
    have := (List.any_eq_false.mp h) p hp
    simpa using this

/-- C5: asking `nameForNamedType` for a type never registered by the
naming pass yields the `InvalidReference` fault and never a name; for a
registered type it returns the allocated name without fault. -/
theorem c5_nameForNamedType_fault (g : TypeGraph) (tls : List (String × Nat))
    (r : NameRef → String) (t : Nat) :
    (cunHas (setUpNamingMap g tls) t = false →
      nameForNamedType r (setUpNamingMap g tls) t = .error .invalidRef)
    ∧ (cunHas (setUpNamingMap g tls) t = true →
      ∃ n, cunGet (setUpNamingMap g tls) t = some n
        ∧ nameForNamedType r (setUpNamingMap g tls) t = .ok (r n)) := by
  constructor
  · intro h
    have hg : cunGet (setUpNamingMap g tls) t = none := (cunGet_none_iff _ _).mpr h
    simp [nameForNamedType, hg]
  · intro h
    cases hg : cunGet (setUpNamingMap g tls) t with
    | none =>
      rw [cunGet_none_iff] at hg
      rw [h] at hg
      exact absurd hg (by simp)
    | some n => exact ⟨n, rfl, by simp [nameForNamedType, hg]⟩

/-- C5 witness: on the concrete graph, node 5 was never registered and
faults; the named class node 3 was registered and resolves. -/
theorem c5_witness :
    (cunHas (setUpNamingMap gNullableInner tlsNullableInner) 5 = false
      ∧ nameForNamedType rConst (setUpNamingMap gNullableInner tlsNullableInner) 5 =
          .error .invalidRef)
    ∧ (cunHas (setUpNamingMap gNullableInner tlsNullableInner) 3 = true
      ∧ ∃ n, cunGet (setUpNamingMap gNullableInner tlsNullableInner) 3 = some n
        ∧ nameForNamedType rConst (setUpNamingMap gNullableInner tlsNullableInner) 3 =
            .ok (rConst n)) :=
  ⟨⟨by decide,
    (c5_nameForNamedType_fault gNullableInner tlsNullableInner rConst 5).1 (by decide)⟩,
   ⟨by decide,
    (c5_nameForNamedType_fault gNullableInner tlsNullableInner rConst 3).2 (by decide)⟩⟩

theorem callsOf_append (l1 l2 : List (EmitEvent α)) :
    callsOf (l1 ++ l2) = callsOf l1 ++ callsOf l2 :=
  List.filterMap_append l1 l2 _

theorem callsOf_interposeBlanks : ∀ (l : List α), callsOf (interposeBlanks l) = l
  | [] => rfl
  | [_] => rfl
  | a :: b :: rest => by
    have ih := callsOf_interposeBlanks (b :: rest)
    simp only [interposeBlanks]
    simp only [callsOf, List.filterMap_cons] at ih ⊢
    rw [ih]

theorem callsOf_mapCall : ∀ (l : List α), callsOf (l.map .call) = l
  | [] => rfl
  | a :: as => by
    have ih := callsOf_mapCall as
    simp only [List.map_cons, callsOf, List.filterMap_cons] at ih ⊢
    rw [ih]

/-- The callback calls of an iterator run are the items in sequence
order, whatever the blank-line policy. -/
theorem callsOf_forEachWithBlankLines (policy : BlankLineLocations) (items : List α) :
    callsOf (forEachWithBlankLines policy items) = items := by
  unfold forEachWithBlankLines
  rw [callsOf_append]
  have h1 : callsOf
      (if policyLeads policy && items.length != 0 then [EmitEvent.blank] else []) =
      ([] : List α) := by
    split
    · rfl
    · rfl
  have h2 : callsOf
      (if policyInterposes policy then interposeBlanks items else items.map EmitEvent.call) =
      items := by
    split
    · exact callsOf_interposeBlanks items
    · exact callsOf_mapCall items
  rw [h1, h2, List.nil_append]

/-- C8: the argument sequences with which `forEachTopLevel`,
`forEachClass`, `forEachUnion` and `forEachNamedType` invoke their
callbacks are identical under any two blank-line policies: the policy
affects only separator placement. -/
theorem c8_blank_lines_not_semantic (g : TypeGraph) (r : NameRef → String)
    (m : CUNames) (tls : List (String × Nat)) (classes unions namedTypes : List Nat)
    (leavesFirst : Bool) (p1 p2 : BlankLineLocations) :
    forEachTopLevelCalls p1 tls = forEachTopLevelCalls p2 tls
    ∧ forEachClassCalls g r m p1 classes = forEachClassCalls g r m p2 classes
    ∧ forEachUnionCalls m p1 unions = forEachUnionCalls m p2 unions
    ∧ forEachNamedTypeCalls g r m p1 leavesFirst namedTypes =
        forEachNamedTypeCalls g r m p2 leavesFirst namedTypes := by
  refine ⟨?_, ?_, ?_, ?_⟩
  · simp [forEachTopLevelCalls, callsOf_forEachWithBlankLines]
  · simp [forEachClassCalls, callsOf_forEachWithBlankLines]
  · simp [forEachUnionCalls, callsOf_forEachWithBlankLines]
  · simp [forEachNamedTypeCalls, callsOf_forEachWithBlankLines]

/-- C7: for a Class, `childrenOfType` returns the property types ordered
by each property final resolved name (a sorted permutation of the
property list, first duplicate occurrence kept); for Array, Map and Union
it returns the element type, the value type, and the member set, via the
node stored children. -/
theorem c7_childrenOfType_shape (g : TypeGraph) (r : NameRef → String) (t : Nat) :
    (∀ ps, typeAt g t = .classOf ps →
      (sortPropsByResolvedName r t ps).Perm ps
      ∧ (sortPropsByResolvedName r t ps).Pairwise
          (fun a b => strLe (propKey r t a) (propKey r t b) = true)
      ∧ childrenOfType g r t =
          ((sortPropsByResolvedName r t ps).map (fun p => p.2)).eraseDups)
    ∧ (∀ i, typeAt g t = .arrayOf i → childrenOfType g r t = [i])
    ∧ (∀ v, typeAt g t = .mapOf v → childrenOfType g r t = [v])
    ∧ (∀ ms, typeAt g t = .unionOf ms → childrenOfType g r t = ms.eraseDups) := by
  refine ⟨?_, ?_, ?_, ?_⟩
  · intro ps h
    refine ⟨List.perm_insertionSort _ _, ?_, ?_⟩
    · haveI : IsTotal (String × Nat)
          (fun a b => strLe (propKey r t a) (propKey r t b) = true) :=
        ⟨fun a b => strLe_total (propKey r t a) (propKey r t b)⟩
      haveI : IsTrans (String × Nat)
          (fun a b => strLe (propKey r t a) (propKey r t b) = true) :=
        ⟨fun a b c => strLe_trans (propKey r t a) (propKey r t b) (propKey r t c)⟩
      exact List.sorted_insertionSort _ _
    · simp [childrenOfType, h]
  · intro i h
    simp only [childrenOfType, childrenRaw, h]
    rfl
  · intro v h
    simp only [childrenOfType, childrenRaw, h]
    rfl
  · intro ms h
    simp [childrenOfType, childrenRaw, h]

/-- C7 witness: on the concrete two-property class the children come out
sorted by resolved property name, opposite to insertion order. -/
theorem c7_witness :
    ((sortPropsByResolvedName rRaw 2 [("b", 0), ("a", 1)]).Perm [("b", 0), ("a", 1)]
      ∧ (sortPropsByResolvedName rRaw 2 [("b", 0), ("a", 1)]).Pairwise
          (fun a b => strLe (propKey rRaw 2 a) (propKey rRaw 2 b) = true)
      ∧ childrenOfType gTwoProps rRaw 2 =
          ((sortPropsByResolvedName rRaw 2 [("b", 0), ("a", 1)]).map
            (fun p => p.2)).eraseDups)
    ∧ childrenOfType gTwoProps rRaw 2 = [1, 0] :=
  ⟨(c7_childrenOfType_shape gTwoProps rRaw 2).1 [("b", 0), ("a", 1)] (by decide),
   by decide⟩

theorem mapE_ok_spec (f : α → Except Fault β) : ∀ (l : List α) (res : List β),
    mapE f l = .ok res →
    res.length = l.length ∧
      ∀ i (h1 : i < l.length) (h2 : i < res.length),
        f (l.get ⟨i, h1⟩) = .ok (res.get ⟨i, h2⟩)
  | [], res => by
    intro h
    simp only [mapE] at h
    injection h with h
    subst h
    exact ⟨rfl, fun i h1 _ => absurd h1 (by simp at h1)⟩
  | a :: as, res => by
    intro h
    simp only [mapE] at h
    cases hfa : f a with
    | error e => rw [hfa] at h; simp [Bind.bind, Except.bind] at h
    | ok b =>
      rw [hfa] at h
      cases hmas : mapE f as with
      | error e => rw [hmas] at h; simp [Bind.bind, Except.bind] at h
      | ok bs =>
        rw [hmas] at h
        simp only [Bind.bind, Except.bind] at h
        injection h with h
        subst h
        have ih := mapE_ok_spec f as bs hmas
        refine ⟨by simp [ih.1], ?_⟩
        intro i h1 h2
        cases i with
        | zero => simpa using hfa
        | succ j =>
          simp only [List.get_cons_succ]
          exact ih.2 j (by simpa using h1) (by simpa using h2)

/-- When at least two non-null members remain and their texts are
computed, both variant renderings are the `boost::variant` over exactly
those texts in order — the `noOptional` one bare, the typedef one wrapped
in `boost::optional` iff the union had Null. -/
theorem variantType_ok_shapes (g : TypeGraph) (r : NameRef → String) (m : CUNames)
    (fuel u : Nat) (texts : List String)
    (hlen : 2 ≤ (removeNullFromUnion g u).2.length)
    (ht : variantMemberTexts g r m fuel (removeNullFromUnion g u).2 = .ok texts) :
    variantType g r m fuel u true =
      .ok ("boost::variant<" ++ String.intercalate ", " texts ++ ">")
    ∧ variantType g r m fuel u false =
      .ok (if (removeNullFromUnion g u).1 then
            "boost::optional<" ++
              ("boost::variant<" ++ String.intercalate ", " texts ++ ">") ++ ">"
          else "boost::variant<" ++ String.intercalate ", " texts ++ ">") := by
  have hcpo : cppTypeInOptional g r m fuel (removeNullFromUnion g u).2 =
      .ok ("boost::variant<" ++ String.intercalate ", " texts ++ ">") := by
    rcases hnn : (removeNullFromUnion g u).2 with _ | ⟨a, _ | ⟨b, rest⟩⟩
    · rw [hnn] at hlen; simp at hlen
    · rw [hnn] at hlen; simp at hlen
    · rw [hnn] at ht
      simp only [cppTypeInOptional]
      rw [ht]
      simp [Except.map]
  constructor
  · unfold variantType
    rw [if_neg (by omega)]
    rw [hcpo]
    simp [Except.map]
  · unfold variantType
    rw [if_neg (by omega)]
    rw [hcpo]
    cases hn : (removeNullFromUnion g u).1 <;> simp [Except.map, hn]

/-- C3: whenever `emitUnionFunctions` emits the `to_json` switch for a
named union, case `i` casts with `boost::get` to exactly the text of the
i-th non-null member of `removeNullFromUnion(u)`, the same member order
(and the same texts) in which the variant typedef is built; an unmatched
discriminant reaches the unconditional throwing default line. -/
theorem c3_to_json_switch_aligned (g : TypeGraph) (r : NameRef → String) (m : CUNames)
    (fuel u : Nat) (unionName : String) (out : UnionToJson)
    (h : emitUnionToJson g r m fuel u = .ok out) :
    ∃ texts : List String,
      variantMemberTexts g r m fuel (removeNullFromUnion g u).2 = .ok texts
      ∧ texts.length = (removeNullFromUnion g u).2.length
      ∧ out.cases.length = texts.length
      ∧ (∀ i (h1 : i < (removeNullFromUnion g u).2.length) (h3 : i < texts.length)
            (h2 : i < out.cases.length),
          cppType g r m fuel ((removeNullFromUnion g u).2.get ⟨i, h1⟩) =
              .ok (texts.get ⟨i, h3⟩)
          ∧ out.cases.get ⟨i, h2⟩ =
              (i, "j = boost::get<" ++ texts.get ⟨i, h3⟩ ++ ">(x);"))
      ∧ out.defaultLine = "default: throw \"This should not happen\";"
      ∧ emitUnionTypedef g r m fuel u unionName =
          .ok ("typedef " ++
            (if (removeNullFromUnion g u).1 then
              "boost::optional<" ++
                ("boost::variant<" ++ String.intercalate ", " texts ++ ">") ++ ">"
             else "boost::variant<" ++ String.intercalate ", " texts ++ ">") ++
            " " ++ unionName ++ ";") := by
  unfold emitUnionToJson at h
  cases hv : variantType g r m fuel u true with
  | error e => rw [hv] at h; simp [Bind.bind, Except.bind] at h
  | ok sv =>
    rw [hv] at h
    cases ht : variantMemberTexts g r m fuel (removeNullFromUnion g u).2 with
    | error e => rw [ht] at h; simp [Bind.bind, Except.bind] at h
    | ok texts =>
      rw [ht] at h
      simp only [Bind.bind, Except.bind] at h
      injection h with h
      subst h
      have hlen : 2 ≤ (removeNullFromUnion g u).2.length := by
        by_contra hc
        push_neg at hc
        unfold variantType at hv
        rw [if_pos (by omega)] at hv
        exact absurd hv (by simp)
      have hshapes := variantType_ok_shapes g r m fuel u texts hlen ht
      have ht2 : mapE (cppType g r m fuel) (removeNullFromUnion g u).2 = .ok texts := ht
      have hspec := mapE_ok_spec (cppType g r m fuel) (removeNullFromUnion g u).2 texts ht2
      refine ⟨texts, rfl, hspec.1, by simp, ?_, rfl, ?_⟩
      · intro i h1 h3 h2
        refine ⟨hspec.2 i h1 h3, ?_⟩
        simp only [List.get_eq_getElem, List.getElem_map, List.getElem_enum]
      · unfold emitUnionTypedef
        rw [hshapes.2]
        simp [Except.map]

/-- The naming map registering the Integer-or-String union. -/
def mIntOrString : CUNames := [(2, .simpleName 2)]

/-- The `to_json` switch the C++ backend emits for the concrete
Integer-or-String union. -/
def outIntOrString : UnionToJson :=
  { cases := [(0, "j = boost::get<int64_t>(x);"), (1, "j = boost::get<std::string>(x);")]
    defaultLine := "default: throw \"This should not happen\";" }

/-- C3 witness: the concrete Integer-or-String union emitted switch is
aligned case by case with the variant typedef member order. -/
theorem c3_witness :
    emitUnionToJson gIntOrString rConst mIntOrString 1 2 = .ok outIntOrString
    ∧ ∃ texts : List String,
        variantMemberTexts gIntOrString rConst mIntOrString 1
            (removeNullFromUnion gIntOrString 2).2 = .ok texts
        ∧ texts.length = (removeNullFromUnion gIntOrString 2).2.length
        ∧ outIntOrString.cases.length = texts.length
        ∧ (∀ i (h1 : i < (removeNullFromUnion gIntOrString 2).2.length)
              (h3 : i < texts.length) (h2 : i < outIntOrString.cases.length),
            cppType gIntOrString rConst mIntOrString 1
                ((removeNullFromUnion gIntOrString 2).2.get ⟨i, h1⟩) =
                .ok (texts.get ⟨i, h3⟩)
            ∧ outIntOrString.cases.get ⟨i, h2⟩ =
                (i, "j = boost::get<" ++ texts.get ⟨i, h3⟩ ++ ">(x);"))
        ∧ outIntOrString.defaultLine = "default: throw \"This should not happen\";"
        ∧ emitUnionTypedef gIntOrString rConst mIntOrString 1 2 "intOrString" =
            .ok ("typedef " ++
              (if (removeNullFromUnion gIntOrString 2).1 then
                "boost::optional<" ++
                  ("boost::variant<" ++
                    String.intercalate ", " texts ++ ">") ++ ">"
               else "boost::variant<" ++ String.intercalate ", " texts ++ ">") ++
              " " ++ "intOrString" ++ ";") :=
  ⟨rfl,
   c3_to_json_switch_aligned gIntOrString rConst mIntOrString 1 2 "intOrString"
     outIntOrString rfl⟩

/-- The forbidden set of the per-class property namespace the C++ backend
creates (extra names none, extra namespaces exactly the global one): the
resolved global members plus the global forbidden words. -/
theorem forbiddenStrings_propertyScope (r : NameRef → String) (kws : List String)
    (typeNames props : List NameRef) (s : String) :
    s ∈ forbiddenStrings r (propertyScope [] [globalScope kws typeNames] props) ↔
      (s ∈ typeNames.map r ∨ s ∈ kws) := by
  rw [propertyScope, globalScope, forbiddenStrings]
  simp [scopeMembers, forbiddenStrings, List.attach, List.attachWith]

/-- C4: with the C++ backend `forbiddenForProperties` (no extra names,
the global namespace as the one extra namespace), the forbidden set of
the property namespace built for a class is the union of the extras
contribution with everything forbidden in the global namespace — every
allocated type name and every keyword — so under a valid resolution no
property name can resolve to any type name or forbidden word of the
global namespace. -/
theorem c4_property_namespace_forbidden (r : NameRef → String) (kws : List String)
    (typeNames props : List NameRef) :
    (∀ s, s ∈ forbiddenStrings r (propertyScope [] [globalScope kws typeNames] props) ↔
        (s ∈ typeNames.map r ∨ s ∈ kws))
    ∧ (ValidResolution r (propertyScope [] [globalScope kws typeNames] props) →
        ∀ p ∈ props, r p ∉ kws ∧ ∀ tn ∈ typeNames, r p ≠ r tn) := by
  refine ⟨fun s => forbiddenStrings_propertyScope r kws typeNames props s, ?_⟩
  intro hval p hp
  have hnotin : r p ∉ forbiddenStrings r
      (propertyScope [] [globalScope kws typeNames] props) := hval p hp
  rw [forbiddenStrings_propertyScope] at hnotin
  push_neg at hnotin
  refine ⟨hnotin.2, ?_⟩
  intro tn htn heq
  exact hnotin.1 (by exact List.mem_map.mpr ⟨tn, htn, heq.symm⟩)

/-- Concrete resolution table for the C4 witness. -/
def rC4 : NameRef → String := fun n =>
  match n with
  | .simpleName _ => "foo"
  | .propName _ _ => "bar"
  | .topLevel _ => "top"

def kwsC4 : List String := ["class"]

def typeNamesC4 : List NameRef := [.simpleName 0]

def propsC4 : List NameRef := [.propName 0 "a"]

/-- C4 witness: on the concrete one-class instance the resolution is
valid and the property resolved text collides with no type name and no
keyword. -/
theorem c4_witness :
    ValidResolution rC4 (propertyScope [] [globalScope kwsC4 typeNamesC4] propsC4)
    ∧ ∀ p ∈ propsC4, rC4 p ∉ kwsC4 ∧ ∀ tn ∈ typeNamesC4, rC4 p ≠ rC4 tn := by
  have hv : ValidResolution rC4
      (propertyScope [] [globalScope kwsC4 typeNamesC4] propsC4) := by
    intro n hn
    rw [forbiddenStrings_propertyScope]
    simp only [propertyScope, scopeMembers, propsC4, List.mem_singleton] at hn
    subst hn
    decide
  exact ⟨hv,
    (c4_property_namespace_forbidden rC4 kwsC4 typeNamesC4 propsC4).2 hv⟩

theorem nullable_is_union (g : TypeGraph) (u x : Nat)
    (h : nullableFromUnion g u = some x) : ∃ ms, typeAt g u = .unionOf ms := by
  unfold nullableFromUnion at h
  cases htu : typeAt g u <;> rw [htu] at h
  case unionOf ms => exact ⟨ms, rfl⟩
  all_goals simp at h

theorem isUnion_of_nullable (g : TypeGraph) (u x : Nat)
    (h : nullableFromUnion g u = some x) : isUnion g u = true := by
  obtain ⟨ms, hms⟩ := nullable_is_union g u x h
  simp [isUnion, hms]

theorem isClass_false_of_nullable (g : TypeGraph) (u x : Nat)
    (h : nullableFromUnion g u = some x) : isClass g u = false := by
  obtain ⟨ms, hms⟩ := nullable_is_union g u x h
  simp [isClass, hms]

theorem anyKey_filter_ne (t u : Nat) (h : t ≠ u) : ∀ (m : CUNames),
    (List.filter (fun p => p.1 != t) m).any (fun p => p.1 == u) =
      m.any (fun p => p.1 == u)
  | [] => rfl
  | a :: as => by
    have ih := anyKey_filter_ne t u h as
    by_cases ha : a.1 = t
    · rw [List.filter_cons_of_neg (by simp [ha])]
      rw [ih]
      have hu : (a.1 == u) = false := by simp [ha, h]
      simp [List.any_cons, hu]
    · rw [List.filter_cons_of_pos (by simp [ha])]
      simp [List.any_cons, ih]

theorem cunHas_cunSet_ne (m : CUNames) (t u : Nat) (n : NameRef) (h : t ≠ u) :
    cunHas (cunSet m t n) u = cunHas m u := by
  unfold cunHas cunSet
  rw [List.any_cons]
  have ht : ((t, n).1 == u) = false := by simp [h]
  rw [ht, Bool.false_or, anyKey_filter_ne t u h m]

theorem cunHas_addClassOrUnionNamed_ne (m : CUNames) (t u : Nat) (h : t ≠ u) :
    cunHas (addClassOrUnionNamed m t) u = cunHas m u := by
  unfold addClassOrUnionNamed
  split
  · rfl
  · exact cunHas_cunSet_ne m t u _ h

theorem cunHas_foldl_addCU (u : Nat) : ∀ (l : List Nat) (m : CUNames),
    (∀ c ∈ l, c ≠ u) → cunHas (l.foldl addClassOrUnionNamed m) u = cunHas m u
  | [], _, _ => rfl
  | c :: cs, m, h => by
    rw [List.foldl_cons]
    rw [cunHas_foldl_addCU u cs _ (fun y hy => h y (List.mem_cons_of_mem c hy))]
    exact cunHas_addClassOrUnionNamed_ne m c u (h c (List.mem_cons_self c cs))

theorem cunHas_foldl_regTopLevel (g : TypeGraph) (u : Nat) :
    ∀ (tls : List (String × Nat)) (m : CUNames),
    (∀ p ∈ tls, p.2 ≠ u) →
    cunHas (tls.foldl (fun m p => regTopLevel g m p.1 p.2) m) u = cunHas m u
  | [], _, _ => rfl
  | p :: ps, m, h => by
    rw [List.foldl_cons]
    rw [cunHas_foldl_regTopLevel g u ps _ (fun y hy => h y (List.mem_cons_of_mem p hy))]
    unfold regTopLevel
    split
    · exact cunHas_cunSet_ne m p.2 u _ (h p (List.mem_cons_self p ps))
    · rfl

/-- C2 (amended): a nullable union — two members, exactly one Null — is
filtered out of `_namedTypes` (hence `_namedUnions`) by `emitSource`;
the naming-pass class and named-union loops never register it, so it gets
no name unless it is itself a top level; and `cppType` renders it at use
sites as `boost::optional` of the other member, never by name. -/
theorem c2_nullable_union_unnamed (g : TypeGraph) (r : NameRef → String)
    (tls : List (String × Nat)) (u x : Nat)
    (hx : nullableFromUnion g u = some x) :
    u ∉ namedTypesOf g r tls
    ∧ u ∉ namedUnionsOf g r tls
    ∧ ((∀ p ∈ tls, p.2 ≠ u) → cunHas (setUpNamingMap g tls) u = false)
    ∧ (∀ (m : CUNames) (fuel : Nat), cppType g r m (fuel + 1) u =
        (cppType g r m fuel x).map (fun s => "boost::optional<" ++ s ++ ">")) := by
  have hU := isUnion_of_nullable g u x hx
  have hC := isClass_false_of_nullable g u x hx
  have hN : unionNeedsName g u = false := by simp [unionNeedsName, hx]
  have hnt : u ∉ namedTypesOf g r tls := by
    intro hmem
    have hp := (List.mem_filter.mp hmem).2
    rw [hU, hN] at hp
    simp at hp
  refine ⟨hnt, ?_, ?_, ?_⟩
  · intro hmem
    exact hnt (List.mem_filter.mp hmem).1
  · intro htl
    simp only [setUpNamingMap]
    rw [cunHas_foldl_addCU u _ _ ?hu]
    case hu =>
      intro c hc heq
      subst heq
      have := (List.mem_filter.mp hc).2
      rw [hN] at this
      simp at this
    rw [cunHas_foldl_addCU u _ _ ?hc]
    case hc =>
      intro c hc heq
      subst heq
      have := (List.mem_filter.mp hc).2
      rw [hC] at this
      simp at this
    rw [cunHas_foldl_regTopLevel g u tls [] htl]
    rfl
  · intro m fuel
    obtain ⟨ms, hms⟩ := nullable_is_union g u x hx
    simp [cppType, hms, hx]

/-- C2 witness: the concrete nullable union held inside a class is absent
from the named-type set, gets no entry in `_classAndUnionNames`, and is
rendered as `boost::optional<bool>`. -/
theorem c2_witness :
    2 ∉ namedTypesOf gNullableInner rConst tlsNullableInner
    ∧ 2 ∉ namedUnionsOf gNullableInner rConst tlsNullableInner
    ∧ cunHas (setUpNamingMap gNullableInner tlsNullableInner) 2 = false
    ∧ cppType gNullableInner rConst [] 2 2 =
        (cppType gNullableInner rConst [] 1 1).map
          (fun s => "boost::optional<" ++ s ++ ">") := by
  have h := c2_nullable_union_unnamed gNullableInner rConst tlsNullableInner 2 1 (by decide)
  exact ⟨h.1, h.2.1, h.2.2.1 (by decide), h.2.2.2 [] 1⟩

/-- C2 counterexample: a nullable union that is itself a top level does
receive a Name — `nameForTopLevel` registers it in `_classAndUnionNames`
because `namedTypeToNameForTopLevel` returns any `NamedType`, so
`setUpNaming` does not allocate names only for unions with
`unionNeedsName` true. -/
theorem c2_counterexample :
    nullableFromUnion gNullableTop 2 = some 1
    ∧ cunHas (setUpNamingMap gNullableTop tlsNullableTop) 2 = true
    ∧ cunGet (setUpNamingMap gNullableTop tlsNullableTop) 2 = some (.topLevel "x") := by
  decide

end Quicktype
